import Mathlib

/-!
Verification development for the `chatbot_voice` session relay and
tool-call mediator.

The development shallowly embeds the two source modules that carry the
mediation logic:

* `src/form.ts` — the `GoogleFormHandler` submission adapter: the static
  field list `FORM_FIELDS`, the `fetchForm` accessor and the `submit`
  operation.  The external `axios.post` network call is modelled by an
  explicit `NetOutcome` oracle; a thrown JavaScript exception is modelled
  as `Except.error` (the message of the thrown error object).
* `src/server.ts` — the per-session mediator: the setup handshake built on
  upstream `open`, the two forwarding pumps, the `toolCall` handling loop
  with its `await formHandler.submit(...)` suspension points, and the
  close/error handlers.  The session is modelled as an explicit state
  (`SessionState`) driven by external events (`Ev`); the `async` message
  handler is modelled faithfully: processing a `toolCall` message suspends
  at each `await` (recorded in `SessionState.pending`) and resumes on a
  `submitDone` event, so interleavings of the Node event loop are traces
  of this model.
-/

/-! ## form.ts -/

/-- `FormField` interface of `src/form.ts`. -/
structure FormField where
  id : String
  label : String
  required : Bool
  type : String
deriving DecidableEq

/-- The hardcoded `FORM_FIELDS` constant of `src/form.ts`. -/
def FORM_FIELDS : List FormField :=
  [ { id := "entry.2005620554", label := "Name", required := true, type := "text" },
    { id := "entry.1045781291", label := "Email", required := true, type := "email" },
    { id := "entry.1166974658", label := "Phone number", required := false, type := "text" },
    { id := "entry.839337160", label := "Comments", required := false, type := "text" } ]

/-- The `GoogleFormHandler` class: its only instance state is the
constructor argument `formUrl`. -/
structure GoogleFormHandler where
  formUrl : String

/-- `GoogleFormHandler.fetchForm`: returns the hardcoded field list,
performing no network access (the method body is `return FORM_FIELDS`). -/
def GoogleFormHandler.fetchForm (_h : GoogleFormHandler) : List FormField :=
  FORM_FIELDS

/-- Outcome of the external `axios.post` call: an HTTP response with a
status code, or a transport-level failure with an error message. -/
inductive NetOutcome
| resp (status : Nat)
| netErr (message : String)
deriving DecidableEq

/-- `axios.post` as seen by the caller: it resolves on a 2xx status and
rejects (throws) otherwise — on a non-2xx status with its standard
status-code message, on a transport failure with that failure's message.
`Except.error` models the thrown error's `.message`. -/
def axiosPostResult : NetOutcome → Except String Unit
| .resp status =>
    if 200 ≤ status ∧ status < 300 then .ok ()
    else .error ("Request failed with status code " ++ toString status)
| .netErr message => .error message

/-- `GoogleFormHandler.submit` of `src/form.ts`: in test mode it returns
immediately without any network call; otherwise it performs the
`axios.post` and, in the `catch` branch, rethrows the caught error
(`throw error`), so the caller observes exactly the axios failure. -/
def GoogleFormHandler.submit (_h : GoogleFormHandler)
    (_data : List (String × String)) (testMode : Bool) (net : NetOutcome) :
    Except String Unit :=
  if testMode then .ok ()
  else
    match axiosPostResult net with
    | .ok _ => .ok ()
    | .error e => .error e

/-! ## server.ts: the system instruction built by `init()` -/

/-- One line of the `fieldDescriptions` string of `init()`:
`` `- ${f.label} (ID: ${f.id}, Required: ${f.required}, Type: ${f.type})` ``. -/
def fieldDesc (f : FormField) : String :=
  "- " ++ f.label ++ " (ID: " ++ f.id ++ ", Required: " ++ toString f.required
    ++ ", Type: " ++ f.type ++ ")"

/-- `Array.prototype.join('\n')` on a list of strings. -/
def joinLines : List String → String
| [] => ""
| s :: rest =>
  match rest with
  | [] => s
  | _ :: _ => s ++ "\n" ++ joinLines rest

/-- The `fieldDescriptions` value computed by `init()`. -/
def fieldDescriptions (fields : List FormField) : String :=
  joinLines (fields.map fieldDesc)

/-- Text of the system-instruction template before the spliced
`fieldDescriptions` (the template literal of `init()`, after `.trim()`). -/
def instrHead : String :=
  "You are a helpful voice assistant designed to collect information for a specific form.\nYour goal is to conversationally collect the following pieces of information from the user:\n\n"

/-- Text of the system-instruction template after the spliced
`fieldDescriptions` (the template literal of `init()`, after `.trim()`). -/
def instrTail : String :=
  "\n\nProcedure:\n1.  Greet the user warmly.\n2.  Ask for the required information one piece at a time. Do not overwhelm the user.\n3.  If a user provides information, validate it simply (e.g., if it sounds like an email).\n4.  Once all required information is collected, clearly summarize the data you have collected.\n5.  Explicitly ask: \"Is this correct? Do you want me to submit?\"\n6.  WAIT for the user to say \"Yes\", \"Correct\", or \"Submit\".\n7.  ONLY IF the user gives explicit confirmation, then use the \"submit_form\" tool.\n8.  If the user says \"No\" or wants to change something, loop back to update the specific field and ask for confirmation again.\n    DO NOT call \"submit_form\" until you have received a clear \"Yes\" after your summary.\n\nImportant:\n- Be concise. Voice interactions should be short and natural.\n- If the user asks to stop, say goodbye.\n- Speak as if you are a friendly human agent."

/-- The `systemInstruction` string computed by `init()` for a given cached
field list. -/
def systemInstructionFor (fields : List FormField) : String :=
  instrHead ++ fieldDescriptions fields ++ instrTail

/-! ## Substring containment -/

/-- `needle` occurs contiguously inside `hay`. -/
def ContainsSub (needle hay : String) : Prop :=
  ∃ pre post, hay.data = pre ++ needle.data ++ post

theorem strData_append (s t : String) : (s ++ t).data = s.data ++ t.data := by
  cases s; cases t; rfl

theorem containsSub_appendRight {n a : String} (b : String)
    (h : ContainsSub n a) : ContainsSub n (a ++ b) := by
  obtain ⟨p, q, hpq⟩ := h
  exact ⟨p, q ++ b.data, by simp [strData_append, hpq]⟩

theorem containsSub_appendLeft {n b : String} (a : String)
    (h : ContainsSub n b) : ContainsSub n (a ++ b) := by
  obtain ⟨p, q, hpq⟩ := h
  exact ⟨a.data ++ p, q, by simp [strData_append, hpq]⟩

theorem containsSub_refl (s : String) : ContainsSub s s :=
  ⟨[], [], by simp⟩

theorem containsSub_mem_joinLines {s : String} {l : List String}
    (h : s ∈ l) : ContainsSub s (joinLines l) := by
  induction l with
  | nil => cases h
  | cons a rest ih =>
    rcases List.mem_cons.mp h with h1 | h2
    · subst h1
      cases rest with
      | nil => exact containsSub_refl s
      | cons b bs =>
        show ContainsSub s (s ++ "\n" ++ joinLines (b :: bs))
        exact containsSub_appendRight _ (containsSub_appendRight _ (containsSub_refl s))
    · cases rest with
      | nil => cases h2
      | cons b bs =>
        show ContainsSub s (a ++ "\n" ++ joinLines (b :: bs))
        exact containsSub_appendLeft _ (ih h2)

theorem containsSub_label_fieldDesc (f : FormField) :
    ContainsSub f.label (fieldDesc f) :=
  ⟨("- " : String).data,
   (" (ID: " ++ f.id ++ ", Required: " ++ toString f.required
     ++ ", Type: " ++ f.type ++ ")" : String).data,
   by simp [fieldDesc, strData_append]⟩

theorem containsSub_id_fieldDesc (f : FormField) :
    ContainsSub f.id (fieldDesc f) :=
  ⟨("- " ++ f.label ++ " (ID: " : String).data,
   (", Required: " ++ toString f.required ++ ", Type: " ++ f.type ++ ")" : String).data,
   by simp [fieldDesc, strData_append]⟩

theorem containsSub_trans {a b c : String}
    (hab : ContainsSub a b) (hbc : ContainsSub b c) : ContainsSub a c := by
  obtain ⟨p, q, hpq⟩ := hab
  obtain ⟨u, v, huv⟩ := hbc
  exact ⟨u ++ p, q ++ v, by simp [huv, hpq]⟩

theorem containsSub_systemInstruction {f : FormField} {fields : List FormField}
    (hf : f ∈ fields) {s : String} (hs : ContainsSub s (fieldDesc f)) :
    ContainsSub s (systemInstructionFor fields) := by
  have h1 : ContainsSub s (fieldDescriptions fields) :=
    containsSub_trans hs (containsSub_mem_joinLines (List.mem_map_of_mem fieldDesc hf))
  unfold systemInstructionFor
  exact containsSub_appendRight _ (containsSub_appendLeft _ h1)

/-! ## server.ts: protocol messages -/

/-- One `function_declarations` entry of the setup message. -/
structure FunctionDecl where
  name : String
  description : String
deriving DecidableEq

/-- The `setup` message sent on upstream `open` (fixed model identity,
generation/voice configuration and context-window-compression thresholds,
the `systemInstruction` computed by `init()`, and the tool declarations). -/
structure SetupMsg where
  model : String
  responseModalities : List String
  voiceName : String
  triggerTokens : Nat
  targetTokens : Nat
  systemInstruction : String
  functionDeclarations : List FunctionDecl
deriving DecidableEq

/-- The concrete setup message built in `geminiWs.on('open')`. -/
def mkSetup (instruction : String) : SetupMsg :=
  { model := "models/gemini-2.5-flash-native-audio-preview-12-2025",
    responseModalities := ["AUDIO"],
    voiceName := "Zephyr",
    triggerTokens := 25600,
    targetTokens := 12800,
    systemInstruction := instruction,
    functionDeclarations :=
      [ { name := "submit_form", description := "Submits the collected form data." } ] }

/-- A `functionCalls` element: `{ id, name, args: { data } }`. -/
structure FunctionCall where
  id : String
  name : String
  argsData : List (String × String)
deriving DecidableEq

/-- The `toolCall` member of a decoded upstream message; its
`functionCalls` field may be absent. -/
structure ToolCallPart where
  functionCalls : Option (List FunctionCall)
deriving DecidableEq

/-- A text frame that `JSON.parse` accepts: the handler only inspects the
`toolCall` member (absent for all other control messages); everything else
in the decoded object is opaque to the mediator and kept as `rest`. -/
structure ControlMsg where
  toolCall : Option ToolCallPart
  rest : String
deriving DecidableEq

/-- One transport frame: an opaque binary frame (`Buffer.isBuffer data`),
a text frame that parses as JSON, or a text frame on which `JSON.parse`
throws (handled in the `catch` branch). -/
inductive Payload
| bin (bytes : List Nat)
| text (msg : ControlMsg)
| rawText (s : String)
deriving DecidableEq

/-- Resolution of one `formHandler.submit(...)` promise as observed at the
`await`: fulfilled, or rejected with the thrown error's `.message`. -/
inductive SubmitResult
| ok
| err (reason : String)
deriving DecidableEq

/-- The mediator's `try`/`catch` view of the submission adapter's result:
a fulfilled promise is a success, a rejected one is caught and its
`err.message` becomes the failure reason. -/
def submitResultOf : Except String Unit → SubmitResult
| .ok _ => .ok
| .error m => .err m

/-- A message sent on the upstream connection (`geminiWs.send`): the setup
handshake, a relayed client frame, or one of the two synthesized messages
of the tool-call handler. -/
inductive UpMsg
| setup (s : SetupMsg)
| realtime (p : Payload)
| toolResponse (id : String) (success : Bool) (info : String)
| clientTurn (text : String) (turnComplete : Bool)
deriving DecidableEq

/-- The `message` field of the success `toolResponse`. -/
def submitSuccessMessage : String := "Form submitted successfully"

/-- The synthetic user-turn text sent after a successful submission. -/
def submitFollowUpText : String :=
  "The form has been submitted successfully. You can thank the user and end the conversation."

/-- The upstream messages synthesized for one `submit_form` call once its
submission settles: on success the `toolResponse` with
`{success: true, message: ...}` followed by the `client_content` turn with
`turn_complete: true`; on failure only the `toolResponse` with
`{success: false, error: err.message}`. -/
def injectForId (id : String) : SubmitResult → List UpMsg
| .ok => [ .toolResponse id true submitSuccessMessage,
           .clientTurn submitFollowUpText true ]
| .err reason => [ .toolResponse id false reason ]

/-! ## server.ts: the session model -/

/-- State of one transport connection. -/
inductive ConnState
| connecting
| opened
| closed
deriving DecidableEq

/-- A suspended run of the upstream message handler: the loop is parked at
`await formHandler.submit(...)` for the call with id `curId`; `rest` are
the not-yet-visited `functionCalls` of the same message, and `orig` is the
raw frame still to be forwarded to the client after the loop. -/
structure PendingCall where
  curId : String
  rest : List FunctionCall
  orig : Payload
deriving DecidableEq

/-- State of one relay session.  `sentUp` and `sentClient` record the
`geminiWs.send` / `ws.send` invocations in order.  `submitted` records the
invocations of `formHandler.submit` (the adapter) in order.  `pending`
holds the suspended handler runs.  `recvUpOpen` and `recvClientActive` are
observation-only logs of the frames received from the upstream connection
while it was open, resp. from the client while both connections were open
(they influence nothing; they exist so theorems can compare deliveries
with receipts). -/
structure SessionState where
  upstream : ConnState
  client : ConnState
  sentUp : List UpMsg
  sentClient : List Payload
  submitted : List FunctionCall
  pending : List PendingCall
  recvUpOpen : List Payload
  recvClientActive : List Payload
deriving DecidableEq

/-- Session state right after `wss.on('connection')` ran: the client
socket is open, the upstream socket is still connecting, nothing sent. -/
def initState : SessionState :=
  { upstream := .connecting, client := .opened,
    sentUp := [], sentClient := [], submitted := [],
    pending := [], recvUpOpen := [], recvClientActive := [] }

/-- External events driving one session: upstream `open`, an upstream
frame, upstream `error`, upstream `close`, a client frame, client `close`,
and the settlement of the `k`-th pending submission with result `r`. -/
inductive Ev
| upOpen
| upMsg (p : Payload)
| upErr
| upClose
| clientMsg (p : Payload)
| clientClose
| submitDone (k : Nat) (r : SubmitResult)
deriving DecidableEq

/-- The `for (const call of functionCalls)` loop run up to its next
`await`: skips calls whose `name` is not exactly `"submit_form"` and
returns the first matching call together with the calls after it. -/
def findSubmit : List FunctionCall → Option (FunctionCall × List FunctionCall)
| [] => none
| c :: cs => if c.name = "submit_form" then some (c, cs) else findSubmit cs

/-- The upstream `message` handler body for frame `p` (given the handler
runs, i.e. the upstream socket delivered a frame): binary frames and
non-JSON text frames are forwarded to the client raw; a JSON message
without a truthy `toolCall.functionCalls`, or whose calls contain no
`submit_form`, is also forwarded unchanged; otherwise the adapter is
invoked for the first `submit_form` call and the handler suspends at the
`await` (the client forward at the end of the handler has not yet run). -/
def handleUpMsg (s : SessionState) (p : Payload) : SessionState :=
  match p with
  | .bin _ => { s with sentClient := s.sentClient ++ [p] }
  | .rawText _ => { s with sentClient := s.sentClient ++ [p] }
  | .text m =>
    match m.toolCall with
    | none => { s with sentClient := s.sentClient ++ [p] }
    | some tc =>
      match tc.functionCalls with
      | none => { s with sentClient := s.sentClient ++ [p] }
      | some calls =>
        match findSubmit calls with
        | none => { s with sentClient := s.sentClient ++ [p] }
        | some (c, cs) =>
            { s with submitted := s.submitted ++ [c],
                     pending := s.pending ++ [⟨c.id, cs, p⟩] }

/-- Resumption of a suspended handler run `x` when its awaited submission
settles with `r`: send the synthesized message(s) upstream, then continue
the loop over `x.rest`; if another `submit_form` call is found the adapter
is invoked for it and the run suspends again, otherwise the loop ends and
the original frame is forwarded to the client. -/
def resume (s : SessionState) (x : PendingCall) (r : SubmitResult) : SessionState :=
  let s1 := { s with sentUp := s.sentUp ++ injectForId x.curId r }
  match findSubmit x.rest with
  | none => { s1 with sentClient := s1.sentClient ++ [x.orig] }
  | some (c, cs) =>
      { s1 with submitted := s1.submitted ++ [c],
                pending := s1.pending ++ [⟨c.id, cs, x.orig⟩] }

/-- One step of the session under an external event, embedding the
handlers registered in `wss.on('connection')`:

* `upOpen` — `geminiWs.on('open')`: sends the setup message built from the
  cached field list.
* `upMsg` — `geminiWs.on('message')` (fires only while the upstream socket
  is open).
* `upErr` — `geminiWs.on('error')`: only logs; no state change.
* `upClose` — `geminiWs.on('close')`: calls `ws.close()`.
* `clientMsg` — `ws.on('message')`: forwards to upstream only when
  `geminiWs.readyState === OPEN`, otherwise the frame is discarded.
* `clientClose` — `ws.on('close')`: calls `geminiWs.close()`.
* `submitDone k r` — the promise awaited by the `k`-th suspended handler
  run settles with `r`; the run resumes regardless of connection state
  (in-flight submissions are not cancelled by teardown). -/
def stepEv (fields : List FormField) (s : SessionState) : Ev → SessionState
| .upOpen =>
    if s.upstream = .connecting then
      { s with upstream := .opened,
               sentUp := s.sentUp ++ [.setup (mkSetup (systemInstructionFor fields))] }
    else s
| .upMsg p =>
    if s.upstream = .opened then
      handleUpMsg { s with recvUpOpen := s.recvUpOpen ++ [p] } p
    else s
| .upErr => s
| .upClose =>
    if s.upstream = .closed then s
    else { s with upstream := .closed, client := .closed }
| .clientMsg p =>
    if s.client = .opened then
      if s.upstream = .opened then
        { s with sentUp := s.sentUp ++ [.realtime p],
                 recvClientActive := s.recvClientActive ++ [p] }
      else s
    else s
| .clientClose =>
    if s.client = .opened then { s with client := .closed, upstream := .closed }
    else s
| .submitDone k r =>
    match s.pending[k]? with
    | none => s
    | some x => resume { s with pending := s.pending.eraseIdx k } x r

/-- Run a session from state `s` through a trace of events. -/
def runFrom (fields : List FormField) (s : SessionState) (t : List Ev) : SessionState :=
  t.foldl (stepEv fields) s

/-- Run a session from the initial state through a trace of events. -/
def runSession (fields : List FormField) (t : List Ev) : SessionState :=
  runFrom fields initState t

/-! ## Observation helpers -/

/-- Whether an upstream message is the setup handshake. -/
def isSetupMsg : UpMsg → Bool
| .setup _ => true
| _ => false

/-- The relayed client frame inside an upstream message, if it is one. -/
def realtimeOf : UpMsg → Option Payload
| .realtime p => some p
| _ => none

/-- Whether a function call's name is exactly `"submit_form"`. -/
def isSubmitCall (c : FunctionCall) : Bool :=
  c.name = "submit_form"

/-- The `functionCalls` a frame carries, as inspected by the handler. -/
def callsOf : Payload → List FunctionCall
| .text m =>
  match m.toolCall with
  | some tc =>
    match tc.functionCalls with
    | some calls => calls
    | none => []
  | none => []
| _ => []

/-- The `submit_form` calls a frame carries. -/
def submitsOf (p : Payload) : List FunctionCall :=
  (callsOf p).filter isSubmitCall

/-! ## Invariants and schedule predicates -/

/-- Invariant for the setup-handshake claim: while the upstream socket is
still connecting nothing has been sent upstream and no run is suspended;
no message beyond the first is ever a setup message; and once the
upstream socket is open the first upstream message is exactly the setup
message built from the cached field list. -/
def SetupInv (fields : List FormField) (s : SessionState) : Prop :=
  (s.upstream = .connecting → s.sentUp = [] ∧ s.pending = []) ∧
  (∀ m ∈ s.sentUp.drop 1, isSetupMsg m = false) ∧
  (s.upstream = .opened →
    ∃ rest, s.sentUp = UpMsg.setup (mkSetup (systemInstructionFor fields)) :: rest)

/-- The relayed client frames inside the upstream send log are exactly the
client frames received while both connections were open, in order. -/
def RelayInv (s : SessionState) : Prop :=
  s.sentUp.filterMap realtimeOf = s.recvClientActive

/-- Whether an event is the arrival of an upstream frame (the only events
the sequentiality condition constrains). -/
def isUpFrame : Ev → Bool
| .upMsg _ => true
| _ => false

/-- A trace is sequential from `s` when no upstream frame arrives while a
handler run is still suspended on an `await` (i.e. each submission
settles before the next upstream frame is processed).  Executable so
concrete schedules can be checked by evaluation. -/
def seqOk (fields : List FormField) (s : SessionState) : List Ev → Bool
| [] => true
| e :: t =>
  (!isUpFrame e || s.pending.isEmpty) && seqOk fields (stepEv fields s e) t

/-- Delivery invariant maintained on sequential schedules: at most one
suspended run; the client send log followed by the frames still parked in
suspended runs is exactly the upstream receive log; and the adapter
invocations followed by the `submit_form` calls not yet reached in
suspended runs are exactly the `submit_form` calls of the received
frames, in order. -/
def DeliveryInv (s : SessionState) : Prop :=
  s.pending.length ≤ 1 ∧
  s.sentClient ++ s.pending.map (fun x => x.orig) = s.recvUpOpen ∧
  s.submitted ++ (s.pending.map (fun x => x.rest.filter isSubmitCall)).flatten
    = (s.recvUpOpen.map submitsOf).flatten

/-! ## Concrete demonstration values -/

/-- A `submit_form` function call with id `c1` and one collected answer. -/
def demoCall : FunctionCall :=
  { id := "c1", name := "submit_form", argsData := [("entry.2005620554", "Jane")] }

/-- A function call whose name is not `submit_form`. -/
def demoOther : FunctionCall :=
  { id := "c2", name := "other_tool", argsData := [] }

/-- A decoded upstream `ToolCall` message carrying only `demoCall`. -/
def demoMsg : ControlMsg :=
  { toolCall := some { functionCalls := some [demoCall] }, rest := "" }

/-- The text frame carrying `demoMsg`. -/
def demoTool : Payload := .text demoMsg

/-- An opaque binary frame. -/
def demoBin : Payload := .bin [0]

/-- A session whose upstream and client connections are both open and on
which nothing has happened yet. -/
def demoOpen : SessionState := { initState with upstream := .opened }

/-- A session suspended in the middle of processing `demoTool`: the
adapter has been invoked for `demoCall` and the handler awaits its
result. -/
def demoMid : SessionState :=
  { demoOpen with pending := [{ curId := "c1", rest := [], orig := demoTool }],
                  submitted := [demoCall], recvUpOpen := [demoTool] }

/-- A trace delivering the same `ToolCall` message twice, each submission
settling successfully before the next event. -/
def dupTrace : List Ev :=
  [ Ev.upOpen, Ev.upMsg demoTool, Ev.submitDone 0 .ok,
    Ev.upMsg demoTool, Ev.submitDone 0 .ok ]

/-- A trace in which a second upstream frame arrives while the submission
triggered by the first frame is still in flight. -/
def overtakeTrace : List Ev :=
  [ Ev.upOpen, Ev.upMsg demoTool, Ev.upMsg demoBin, Ev.submitDone 0 .ok ]

/-- A sequential trace: one `ToolCall` message, fully settled. -/
def seqTrace : List Ev :=
  [ Ev.upOpen, Ev.upMsg demoTool, Ev.submitDone 0 .ok ]

/-- A decoded upstream `ToolCall` message carrying an unrecognized call
followed by `demoCall`. -/
def demoMsg2 : ControlMsg :=
  { toolCall := some { functionCalls := some [demoOther, demoCall] }, rest := "x" }

/-- A sequential trace exercising both pumps: a client frame relayed
upstream and a fully settled `ToolCall` message. -/
def mixTrace : List Ev :=
  [ Ev.upOpen, Ev.clientMsg demoBin, Ev.upMsg demoTool, Ev.submitDone 0 .ok,
    Ev.upMsg demoBin, Ev.clientMsg demoTool ]

/-! ## Basic run lemmas -/

theorem runFrom_nil (fields : List FormField) (s : SessionState) :
    runFrom fields s [] = s := rfl

theorem runFrom_cons (fields : List FormField) (s : SessionState) (e : Ev) (t : List Ev) :
    runFrom fields s (e :: t) = runFrom fields (stepEv fields s e) t := rfl

theorem findSubmit_none {cs : List FunctionCall} (h : findSubmit cs = none) :
    cs.filter isSubmitCall = [] := by
  induction cs with
  | nil => rfl
  | cons c rest ih =>
    by_cases hc : c.name = "submit_form"
    · simp [findSubmit, hc] at h
    · simp [findSubmit, hc] at h
      simp [List.filter, isSubmitCall, hc, ih h]

theorem findSubmit_some {cs : List FunctionCall} {c : FunctionCall}
    {rest : List FunctionCall} (h : findSubmit cs = some (c, rest)) :
    cs.filter isSubmitCall = c :: rest.filter isSubmitCall ∧ c.name = "submit_form" := by
  induction cs with
  | nil => simp [findSubmit] at h
  | cons d ds ih =>
    by_cases hd : d.name = "submit_form"
    · simp [findSubmit, hd] at h
      obtain ⟨h1, h2⟩ := h
      subst h1; subst h2
      exact ⟨by simp [List.filter, isSubmitCall, hd], hd⟩
    · simp [findSubmit, hd] at h
      obtain ⟨h1, h2⟩ := ih h
      exact ⟨by simp [List.filter, isSubmitCall, hd, h1], h2⟩

/-- Settlement of one suspended handler run: starting from a state whose
only suspended run is `x` and feeding exactly one `submitDone` event per
remaining submission (the awaited one plus one per `submit_form` call left
in `x.rest`), the handler emits, per settled call and in order, exactly
the messages `injectForId` describes, invokes the adapter once per
remaining `submit_form` call, and finally forwards the original frame to
the client. -/
theorem settle_run (fields : List FormField) :
    ∀ (rs : List SubmitResult) (s : SessionState) (x : PendingCall),
    s.pending = [x] →
    rs.length = (x.rest.filter isSubmitCall).length + 1 →
    runFrom fields s (rs.map (Ev.submitDone 0)) =
      { s with pending := [],
               submitted := s.submitted ++ x.rest.filter isSubmitCall,
               sentUp := s.sentUp ++
                 (List.zipWith injectForId
                   (x.curId :: (x.rest.filter isSubmitCall).map (fun c => c.id)) rs).flatten,
               sentClient := s.sentClient ++ [x.orig] } := by
  intro rs
  induction rs with
  | nil =>
    intro s x hp hlen
    simp at hlen
  | cons r rs ih =>
    intro s x hp hlen
    rw [List.map_cons, runFrom_cons]
    have hstep : stepEv fields s (Ev.submitDone 0 r) =
        resume { s with pending := [] } x r := by
      simp [stepEv, hp]
    rw [hstep]
    rcases hfind : findSubmit x.rest with _ | ⟨c, cs⟩
    · have hfilter := findSubmit_none hfind
      rw [hfilter] at hlen
      simp at hlen
      subst hlen
      simp only [resume, hfind]
      cases s
      simp_all [runFrom_nil, hfilter]
    · obtain ⟨hfilter, hname⟩ := findSubmit_some hfind
      rw [hfilter] at hlen
      simp at hlen
      have := ih (resume { s with pending := [] } x r) ⟨c.id, cs, x.orig⟩
        (by simp [resume, hfind]) (by simp [hlen])
      rw [this]
      cases s
      simp_all [resume, hfind, hfilter, List.append_assoc]

/-- Full processing of one upstream JSON message carrying `functionCalls`:
the message event followed by one settlement per `submit_form` call.  The
adapter is invoked exactly for the calls named `submit_form` (in order),
the synthesized upstream messages are exactly those of `injectForId` for
the settled calls (in order), the original frame is forwarded to the
client exactly once, and no suspended run remains. -/
theorem process_message_run (fields : List FormField) (s : SessionState)
    (m : ControlMsg) (calls : List FunctionCall) (rs : List SubmitResult)
    (hm : m.toolCall = some { functionCalls := some calls })
    (hup : s.upstream = .opened)
    (hpend : s.pending = [])
    (hlen : rs.length = (calls.filter isSubmitCall).length) :
    runFrom fields s (Ev.upMsg (.text m) :: rs.map (Ev.submitDone 0)) =
      { s with recvUpOpen := s.recvUpOpen ++ [.text m],
               submitted := s.submitted ++ calls.filter isSubmitCall,
               sentUp := s.sentUp ++
                 (List.zipWith injectForId
                   ((calls.filter isSubmitCall).map (fun c => c.id)) rs).flatten,
               sentClient := s.sentClient ++ [.text m],
               pending := [] } := by
  rw [runFrom_cons]
  have hstep : stepEv fields s (Ev.upMsg (.text m)) =
      handleUpMsg { s with recvUpOpen := s.recvUpOpen ++ [Payload.text m] } (.text m) := by
    simp [stepEv, hup]
  rw [hstep]
  rcases hfind : findSubmit calls with _ | ⟨c, cs⟩
  · have hfilter := findSubmit_none hfind
    rw [hfilter] at hlen
    simp at hlen
    subst hlen
    simp only [handleUpMsg, hm, hfind]
    cases s
    simp_all [runFrom_nil, hfilter]
  · obtain ⟨hfilter, _⟩ := findSubmit_some hfind
    rw [hfilter] at hlen
    simp at hlen
    have hh : handleUpMsg { s with recvUpOpen := s.recvUpOpen ++ [Payload.text m] } (.text m) =
        { s with recvUpOpen := s.recvUpOpen ++ [Payload.text m],
                 submitted := s.submitted ++ [c],
                 pending := s.pending ++ [⟨c.id, cs, Payload.text m⟩] } := by
      simp [handleUpMsg, hm, hfind]
    rw [hh]
    rw [settle_run fields rs _ ⟨c.id, cs, Payload.text m⟩ (by simp [hpend]) (by simp [hlen])]
    cases s
    simp_all [hfilter, List.append_assoc]

/-- Case characterization of the upstream message handler's synchronous
part: either the frame carries no `submit_form` call and is forwarded to
the client at once, or the adapter is invoked for the first `submit_form`
call and the run suspends. -/
theorem handleUpMsg_spec (s : SessionState) (p : Payload) :
    (findSubmit (callsOf p) = none ∧
      handleUpMsg s p = { s with sentClient := s.sentClient ++ [p] }) ∨
    (∃ c cs, findSubmit (callsOf p) = some (c, cs) ∧
      handleUpMsg s p = { s with submitted := s.submitted ++ [c],
                                 pending := s.pending ++ [⟨c.id, cs, p⟩] }) := by
  cases p with
  | bin b => exact Or.inl ⟨rfl, rfl⟩
  | rawText str => exact Or.inl ⟨rfl, rfl⟩
  | text m =>
    rcases hm : m.toolCall with _ | tc
    · exact Or.inl ⟨by simp [callsOf, hm, findSubmit], by simp [handleUpMsg, hm]⟩
    · rcases hfc : tc.functionCalls with _ | calls
      · exact Or.inl ⟨by simp [callsOf, hm, hfc, findSubmit],
          by simp [handleUpMsg, hm, hfc]⟩
      · rcases hfind : findSubmit calls with _ | ⟨c, cs⟩
        · exact Or.inl ⟨by simp [callsOf, hm, hfc, hfind],
            by simp [handleUpMsg, hm, hfc, hfind]⟩
        · exact Or.inr ⟨c, cs, by simp [callsOf, hm, hfc, hfind],
            by simp [handleUpMsg, hm, hfc, hfind]⟩

theorem handleUpMsg_sentUp (s : SessionState) (p : Payload) :
    (handleUpMsg s p).sentUp = s.sentUp := by
  rcases handleUpMsg_spec s p with ⟨_, h⟩ | ⟨c, cs, _, h⟩ <;> rw [h]

theorem handleUpMsg_upstream (s : SessionState) (p : Payload) :
    (handleUpMsg s p).upstream = s.upstream := by
  rcases handleUpMsg_spec s p with ⟨_, h⟩ | ⟨c, cs, _, h⟩ <;> rw [h]

theorem handleUpMsg_client (s : SessionState) (p : Payload) :
    (handleUpMsg s p).client = s.client := by
  rcases handleUpMsg_spec s p with ⟨_, h⟩ | ⟨c, cs, _, h⟩ <;> rw [h]

theorem handleUpMsg_recvClientActive (s : SessionState) (p : Payload) :
    (handleUpMsg s p).recvClientActive = s.recvClientActive := by
  rcases handleUpMsg_spec s p with ⟨_, h⟩ | ⟨c, cs, _, h⟩ <;> rw [h]

/-- Case characterization of the handler resumption. -/
theorem resume_spec (s : SessionState) (x : PendingCall) (r : SubmitResult) :
    (findSubmit x.rest = none ∧
      resume s x r = { s with sentUp := s.sentUp ++ injectForId x.curId r,
                              sentClient := s.sentClient ++ [x.orig] }) ∨
    (∃ c cs, findSubmit x.rest = some (c, cs) ∧
      resume s x r = { s with sentUp := s.sentUp ++ injectForId x.curId r,
                              submitted := s.submitted ++ [c],
                              pending := s.pending ++ [⟨c.id, cs, x.orig⟩] }) := by
  rcases hfind : findSubmit x.rest with _ | ⟨c, cs⟩
  · exact Or.inl ⟨rfl, by simp [resume, hfind]⟩
  · exact Or.inr ⟨c, cs, rfl, by simp [resume, hfind]⟩

theorem resume_upstream (s : SessionState) (x : PendingCall) (r : SubmitResult) :
    (resume s x r).upstream = s.upstream := by
  rcases resume_spec s x r with ⟨_, h⟩ | ⟨c, cs, _, h⟩ <;> rw [h]

theorem resume_client (s : SessionState) (x : PendingCall) (r : SubmitResult) :
    (resume s x r).client = s.client := by
  rcases resume_spec s x r with ⟨_, h⟩ | ⟨c, cs, _, h⟩ <;> rw [h]

theorem resume_recvUpOpen (s : SessionState) (x : PendingCall) (r : SubmitResult) :
    (resume s x r).recvUpOpen = s.recvUpOpen := by
  rcases resume_spec s x r with ⟨_, h⟩ | ⟨c, cs, _, h⟩ <;> rw [h]

theorem resume_recvClientActive (s : SessionState) (x : PendingCall) (r : SubmitResult) :
    (resume s x r).recvClientActive = s.recvClientActive := by
  rcases resume_spec s x r with ⟨_, h⟩ | ⟨c, cs, _, h⟩ <;> rw [h]

theorem resume_sentUp (s : SessionState) (x : PendingCall) (r : SubmitResult) :
    (resume s x r).sentUp = s.sentUp ++ injectForId x.curId r := by
  rcases resume_spec s x r with ⟨_, h⟩ | ⟨c, cs, _, h⟩ <;> rw [h]

theorem countP_isSetup_inject (id : String) (r : SubmitResult) :
    (injectForId id r).countP (fun m => isSetupMsg m) = 0 := by
  cases r <;> simp [injectForId, List.countP_cons, isSetupMsg]

theorem filterMap_realtime_inject (id : String) (r : SubmitResult) :
    (injectForId id r).filterMap realtimeOf = [] := by
  cases r <;> simp [injectForId, realtimeOf]


/-! ## Setup handshake invariant -/

theorem noSetup_drop_one_append {p : UpMsg → Bool} {l l2 : List UpMsg}
    (h1 : ∀ m ∈ l.drop 1, p m = false) (h2 : ∀ m ∈ l2, p m = false) :
    ∀ m ∈ (l ++ l2).drop 1, p m = false := by
  cases l with
  | nil =>
    intro m hm
    exact h2 m (List.mem_of_mem_drop hm)
  | cons a l' =>
    intro m hm
    simp only [List.cons_append, List.drop_succ_cons, List.drop_zero] at hm
    rcases List.mem_append.mp hm with h | h
    · exact h1 m (by simpa using h)
    · exact h2 m h

theorem noSetup_inject (id : String) (r : SubmitResult) :
    ∀ m ∈ injectForId id r, isSetupMsg m = false := by
  cases r <;> simp [injectForId, isSetupMsg]

theorem setupInv_initial (fields : List FormField) : SetupInv fields initState :=
  ⟨fun _ => ⟨rfl, rfl⟩, by simp [initState], fun h => by simp [initState] at h⟩

theorem setupInv_step (fields : List FormField) (s : SessionState) (e : Ev)
    (h : SetupInv fields s) : SetupInv fields (stepEv fields s e) := by
  obtain ⟨hconn, hdrop, hopen⟩ := h
  cases e with
  | upOpen =>
    by_cases hc : s.upstream = .connecting
    · obtain ⟨hsu, _⟩ := hconn hc
      refine ⟨?_, ?_, ?_⟩ <;> simp [stepEv, hc, hsu]
    · simp only [stepEv, hc, if_false]
      exact ⟨hconn, hdrop, hopen⟩
  | upMsg p =>
    by_cases hc : s.upstream = .opened
    · simp only [stepEv, hc, if_true]
      refine ⟨?_, ?_, ?_⟩
      · rw [handleUpMsg_upstream]; intro hcc; simp at hcc
      · rw [handleUpMsg_sentUp]; simpa using hdrop
      · rw [handleUpMsg_upstream, handleUpMsg_sentUp]
        intro _; simpa using hopen hc
    · simp only [stepEv, hc, if_false]
      exact ⟨hconn, hdrop, hopen⟩
  | upErr => exact ⟨hconn, hdrop, hopen⟩
  | upClose =>
    by_cases hc : s.upstream = .closed
    · simp only [stepEv, hc, if_true]
      exact ⟨hconn, hdrop, hopen⟩
    · simp only [stepEv, hc, if_false]
      exact ⟨by intro hcc; simp at hcc, hdrop, by intro hcc; simp at hcc⟩
  | clientMsg p =>
    by_cases hcl : s.client = .opened
    · by_cases hc : s.upstream = .opened
      · obtain ⟨rest, hrest⟩ := hopen hc
        simp only [stepEv, hcl, hc, if_true]
        refine ⟨by intro hcc; simp [hc] at hcc, ?_, ?_⟩
        · exact noSetup_drop_one_append hdrop (by simp [isSetupMsg])
        · intro _
          exact ⟨rest ++ [UpMsg.realtime p], by simp [hrest]⟩
      · simp only [stepEv, hcl, hc, if_true, if_false]
        exact ⟨hconn, hdrop, hopen⟩
    · simp only [stepEv, hcl, if_false]
      exact ⟨hconn, hdrop, hopen⟩
  | clientClose =>
    by_cases hcl : s.client = .opened
    · simp only [stepEv, hcl, if_true]
      exact ⟨by intro hcc; simp at hcc, hdrop, by intro hcc; simp at hcc⟩
    · simp only [stepEv, hcl, if_false]
      exact ⟨hconn, hdrop, hopen⟩
  | submitDone k r =>
    rcases hx : s.pending[k]? with _ | x
    · simp only [stepEv, hx]
      exact ⟨hconn, hdrop, hopen⟩
    · have hnc : ¬ s.upstream = .connecting := by
        intro hcc
        obtain ⟨_, hp⟩ := hconn hcc
        rw [hp] at hx
        simp at hx
      simp only [stepEv, hx]
      refine ⟨?_, ?_, ?_⟩
      · rw [resume_upstream]; exact fun hcc => absurd hcc hnc
      · rw [resume_sentUp]
        exact noSetup_drop_one_append (by simpa using hdrop) (noSetup_inject _ _)
      · rw [resume_upstream, resume_sentUp]
        intro hc
        obtain ⟨rest, hrest⟩ := hopen hc
        exact ⟨rest ++ injectForId x.curId r, by simp [hrest]⟩

theorem setupInv_run (fields : List FormField) :
    ∀ (t : List Ev) (s : SessionState),
    SetupInv fields s → SetupInv fields (runFrom fields s t) := by
  intro t
  induction t with
  | nil => exact fun s h => h
  | cons e t ih => exact fun s h => ih _ (setupInv_step fields s e h)

/-! ## Client-to-upstream pump invariant -/

theorem relayInv_step (fields : List FormField) (s : SessionState) (e : Ev)
    (h : RelayInv s) : RelayInv (stepEv fields s e) := by
  unfold RelayInv at *
  cases e with
  | upOpen =>
    by_cases hc : s.upstream = .connecting <;>
      simp [stepEv, hc, List.filterMap_append, realtimeOf, h]
  | upMsg p =>
    by_cases hc : s.upstream = .opened
    · simp only [stepEv, hc, if_true]
      rw [handleUpMsg_sentUp, handleUpMsg_recvClientActive]
      simpa using h
    · simp [stepEv, hc, h]
  | upErr => exact h
  | upClose =>
    by_cases hc : s.upstream = .closed <;> simp [stepEv, hc, h]
  | clientMsg p =>
    by_cases hcl : s.client = .opened
    · by_cases hc : s.upstream = .opened
      · simp [stepEv, hcl, hc, List.filterMap_append, realtimeOf, h]
      · simp [stepEv, hcl, hc, h]
    · simp [stepEv, hcl, h]
  | clientClose =>
    by_cases hcl : s.client = .opened <;> simp [stepEv, hcl, h]
  | submitDone k r =>
    rcases hx : s.pending[k]? with _ | x
    · simp [stepEv, hx, h]
    · simp only [stepEv, hx]
      rw [resume_sentUp, resume_recvClientActive]
      simpa [List.filterMap_append, filterMap_realtime_inject] using h

theorem relayInv_run (fields : List FormField) :
    ∀ (t : List Ev) (s : SessionState), RelayInv s → RelayInv (runFrom fields s t) := by
  intro t
  induction t with
  | nil => exact fun s h => h
  | cons e t ih => exact fun s h => ih _ (relayInv_step fields s e h)

theorem relayInv_initial : RelayInv initState := by
  simp [RelayInv, initState]

/-! ## Sequential schedules and the delivery invariant -/

theorem deliveryInv_initial : DeliveryInv initState := by
  refine ⟨by simp [initState], by simp [initState], by simp [initState]⟩

theorem stepEv_upMsg_opened (fields : List FormField) (s : SessionState) (p : Payload)
    (hc : s.upstream = .opened) :
    stepEv fields s (.upMsg p) =
      handleUpMsg { s with recvUpOpen := s.recvUpOpen ++ [p] } p := by
  simp [stepEv, hc]

theorem stepEv_submitDone_some (fields : List FormField) (s : SessionState)
    (k : Nat) (r : SubmitResult) (x : PendingCall) (hx : s.pending[k]? = some x) :
    stepEv fields s (.submitDone k r) =
      resume { s with pending := s.pending.eraseIdx k } x r := by
  simp [stepEv, hx]

theorem deliveryInv_step (fields : List FormField) (s : SessionState) (e : Ev)
    (h : DeliveryInv s) (hseq : ∀ p, e = Ev.upMsg p → s.pending = []) :
    DeliveryInv (stepEv fields s e) := by
  obtain ⟨h1, h2, h3⟩ := h
  cases e with
  | upOpen =>
    by_cases hc : s.upstream = .connecting <;>
      · simp only [stepEv, hc, if_true, if_false]
        exact ⟨h1, h2, h3⟩
  | upMsg p =>
    have hpend : s.pending = [] := hseq p rfl
    by_cases hc : s.upstream = .opened
    · rw [stepEv_upMsg_opened fields s p hc]
      rcases handleUpMsg_spec { s with recvUpOpen := s.recvUpOpen ++ [p] } p with
        ⟨hfind, hh⟩ | ⟨c, cs, hfind, hh⟩
      · have hsub : submitsOf p = [] := findSubmit_none hfind
        rw [hh]
        simp only [hpend, List.map_nil, List.append_nil] at h2
        simp only [hpend, List.map_nil, List.flatten_nil, List.append_nil] at h3
        exact ⟨by simp [hpend], by simp [hpend, h2], by simp [hpend, h3, hsub]⟩
      · obtain ⟨hfilter, _⟩ := findSubmit_some hfind
        have hsub : submitsOf p = c :: cs.filter isSubmitCall := hfilter
        rw [hh]
        simp only [hpend, List.map_nil, List.append_nil] at h2
        simp only [hpend, List.map_nil, List.flatten_nil, List.append_nil] at h3
        exact ⟨by simp [hpend], by simp [hpend, h2],
          by simp [hpend, h3, hsub, List.append_assoc]⟩
    · simp only [stepEv, hc, if_false]
      exact ⟨h1, h2, h3⟩
  | upErr => exact ⟨h1, h2, h3⟩
  | upClose =>
    by_cases hc : s.upstream = .closed <;>
      · simp only [stepEv, hc, if_true, if_false]
        exact ⟨h1, h2, h3⟩
  | clientMsg p =>
    by_cases hcl : s.client = .opened
    · by_cases hc : s.upstream = .opened <;>
        · simp only [stepEv, hcl, hc, if_true, if_false]
          exact ⟨h1, h2, h3⟩
    · simp only [stepEv, hcl, if_false]
      exact ⟨h1, h2, h3⟩
  | clientClose =>
    by_cases hcl : s.client = .opened <;>
      · simp only [stepEv, hcl, if_true, if_false]
        exact ⟨h1, h2, h3⟩
  | submitDone k r =>
    rcases hx : s.pending[k]? with _ | x
    · simp only [stepEv, hx]
      exact ⟨h1, h2, h3⟩
    · rcases hp : s.pending with _ | ⟨y, l⟩
      · rw [hp] at hx; simp at hx
      · have hl : l = [] := by rw [hp] at h1; simpa using h1
        subst hl
        have hk0 : k = 0 := by
          rw [hp] at hx
          cases k with
          | zero => rfl
          | succ n => simp at hx
        subst hk0
        have hpx : s.pending = [x] := by
          rw [hp] at hx
          simp at hx
          rw [hp, hx]
        have herase : s.pending.eraseIdx 0 = [] := by rw [hpx]; rfl
        rw [stepEv_submitDone_some fields s 0 r x hx]
        rcases resume_spec { s with pending := s.pending.eraseIdx 0 } x r with
          ⟨hfind, hh⟩ | ⟨c, cs, hfind, hh⟩
        · have hfilter := findSubmit_none hfind
          rw [hh]
          rw [hpx] at h2 h3
          simp only [List.map_cons, List.map_nil, List.flatten_cons, List.flatten_nil,
            List.append_nil, hfilter] at h2 h3
          exact ⟨by simp [herase], by simpa [herase] using h2,
            by simpa [herase] using h3⟩
        · obtain ⟨hfilter, _⟩ := findSubmit_some hfind
          rw [hh]
          rw [hpx] at h2 h3
          simp only [List.map_cons, List.map_nil, List.flatten_cons, List.flatten_nil,
            List.append_nil, hfilter] at h2 h3
          exact ⟨by simp [herase], by simpa [herase] using h2,
            by simpa [herase, List.append_assoc] using h3⟩

theorem deliveryInv_run (fields : List FormField) :
    ∀ (t : List Ev) (s : SessionState),
    seqOk fields s t = true → DeliveryInv s → DeliveryInv (runFrom fields s t) := by
  intro t
  induction t with
  | nil => exact fun s _ h => h
  | cons e t ih =>
    intro s hseq h
    rw [seqOk, Bool.and_eq_true] at hseq
    refine ih _ hseq.2 (deliveryInv_step fields s e h ?_)
    intro p hep
    subst hep
    have h1 := hseq.1
    simp only [isUpFrame, Bool.not_true, Bool.false_or, List.isEmpty_iff] at h1
    exact h1

/-! ## Remaining shared helper lemmas -/

theorem countP_le_one_of_tail {l : List UpMsg} {p : UpMsg → Bool}
    (h : ∀ m ∈ l.drop 1, p m = false) : l.countP p ≤ 1 := by
  cases l with
  | nil => simp
  | cons a l' =>
    simp only [List.drop_succ_cons, List.drop_zero] at h
    have hz : l'.countP p = 0 := by
      rw [List.countP_eq_zero]
      intro m hm
      simp [h m hm]
    simp only [List.countP_cons, hz]
    split <;> omega

theorem filter_submit_single {pre post : List FunctionCall} {c : FunctionCall}
    (hc : c.name = "submit_form")
    (hpre : ∀ d ∈ pre, d.name ≠ "submit_form")
    (hpost : ∀ d ∈ post, d.name ≠ "submit_form") :
    (pre ++ c :: post).filter isSubmitCall = [c] := by
  rw [List.filter_append]
  have h1 : pre.filter isSubmitCall = [] := by
    rw [List.filter_eq_nil_iff]
    intro d hd
    simp [isSubmitCall, hpre d hd]
  have h2 : post.filter isSubmitCall = [] := by
    rw [List.filter_eq_nil_iff]
    intro d hd
    simp [isSubmitCall, hpost d hd]
  simp [h1, h2, List.filter_cons, isSubmitCall, hc]

/-! ## Claim theorems -/

/-- Claim C10 (confirmed): `fetchForm` performs no network access (it is a
pure function of no oracle) and ignores the constructor URL: for every
URL it returns the same fixed four-element field list — Name
(`entry.2005620554`, required, text), Email (`entry.1045781291`,
required, email), Phone number (`entry.1166974658`, optional), Comments
(`entry.839337160`, optional) — so the system instruction built from the
fetched field list is identical for every session and every configured
form URL. -/
theorem claim_C10 :
    (∀ url, (GoogleFormHandler.mk url).fetchForm = FORM_FIELDS) ∧
    FORM_FIELDS =
      [ { id := "entry.2005620554", label := "Name", required := true, type := "text" },
        { id := "entry.1045781291", label := "Email", required := true, type := "email" },
        { id := "entry.1166974658", label := "Phone number", required := false, type := "text" },
        { id := "entry.839337160", label := "Comments", required := false, type := "text" } ] ∧
    (∀ u1 u2, (GoogleFormHandler.mk u1).fetchForm = (GoogleFormHandler.mk u2).fetchForm) ∧
    (∀ u1 u2, systemInstructionFor ((GoogleFormHandler.mk u1).fetchForm) =
      systemInstructionFor ((GoogleFormHandler.mk u2).fetchForm)) :=
  ⟨fun _ => rfl, rfl, fun _ _ => rfl, fun _ _ => rfl⟩

/-- Claim C8 (confirmed): a text frame on which structural decoding fails
(`JSON.parse` throws) is forwarded to the client byte-identical — the very
same frame value is appended to the client send log — while the upstream
send log, the adapter invocation log and the suspended runs are all left
untouched, so no mediator logic runs and no error is surfaced to either
side. -/
theorem claim_C8 (fields : List FormField) (s : SessionState) (str : String)
    (hup : s.upstream = .opened) :
    stepEv fields s (.upMsg (.rawText str)) =
      { s with sentClient := s.sentClient ++ [.rawText str],
               recvUpOpen := s.recvUpOpen ++ [.rawText str] } := by
  rw [stepEv_upMsg_opened fields s _ hup]
  rfl

theorem claim_C8_witness :
    demoOpen.upstream = ConnState.opened ∧
    stepEv [] demoOpen (.upMsg (.rawText "not json")) =
      { demoOpen with sentClient := demoOpen.sentClient ++ [.rawText "not json"],
                      recvUpOpen := demoOpen.recvUpOpen ++ [.rawText "not json"] } :=
  ⟨rfl, claim_C8 [] demoOpen "not json" rfl⟩

/-- Claim C2 counterexample: the claim states that a network error is
returned as `failure(reason)` and never raised, but
`GoogleFormHandler.submit` rethrows the axios error: at a concrete input
with a failing network call, `submit` terminates with a raised exception
(`Except.error`), not a returned failure value. -/
theorem claim_C2_counterexample :
    (GoogleFormHandler.mk "https://docs.google.com/forms/test").submit
      [("entry.2005620554", "Jane")] false (.netErr "network error") =
      Except.error "network error" := rfl

/-- Claim C2 (amended): `submit` either returns success (on 2xx, and
immediately in test mode) or raises the axios error — a network error is
re-raised with its message, a non-2xx response is raised with the axios
status-code message.  The raise does not cross the mediator boundary: the
mediator's `try`/`catch` turns the raised error into the failure result
carried by `err.message`, and the session step for a settled failing
submission sends exactly one `toolResponse` with `success:false` and that
reason upstream, continuing normally. -/
theorem claim_C2 :
    (∀ url data m,
      (GoogleFormHandler.mk url).submit data false (.netErr m) = .error m) ∧
    (∀ url data status, ¬(200 ≤ status ∧ status < 300) →
      (GoogleFormHandler.mk url).submit data false (.resp status) =
        .error ("Request failed with status code " ++ toString status)) ∧
    (∀ url data status, 200 ≤ status → status < 300 →
      (GoogleFormHandler.mk url).submit data false (.resp status) = .ok ()) ∧
    (∀ url data net, (GoogleFormHandler.mk url).submit data true net = .ok ()) ∧
    (∀ m, submitResultOf (Except.error m) = .err m) ∧
    (∀ fields (s : SessionState) (x : PendingCall) e, s.pending = [x] →
      (stepEv fields s (.submitDone 0 (.err e))).sentUp =
        s.sentUp ++ [.toolResponse x.curId false e]) := by
  refine ⟨fun url data m => rfl, ?_, ?_, fun url data net => rfl, fun m => rfl, ?_⟩
  · intro url data status h
    simp [GoogleFormHandler.submit, axiosPostResult, h]
  · intro url data status h1 h2
    simp [GoogleFormHandler.submit, axiosPostResult, h1, h2]
  · intro fields s x e hp
    rw [stepEv_submitDone_some fields s 0 (.err e) x (by rw [hp]; rfl)]
    rw [resume_sentUp]
    rfl

theorem claim_C2_witness :
    demoMid.pending = [{ curId := "c1", rest := [], orig := demoTool }] ∧
    (stepEv [] demoMid (.submitDone 0 (.err "network error"))).sentUp =
      demoMid.sentUp ++ [.toolResponse "c1" false "network error"] ∧
    ¬(200 ≤ 500 ∧ 500 < 300) ∧
    (GoogleFormHandler.mk "u").submit [] false (.resp 500) =
      .error ("Request failed with status code " ++ toString 500) :=
  ⟨rfl,
   claim_C2.2.2.2.2.2 [] demoMid { curId := "c1", rest := [], orig := demoTool }
     "network error" rfl,
   by decide,
   claim_C2.2.1 "u" [] 500 (by decide)⟩

/-- Claim C1 counterexample: the claim states the adapter is invoked at
most once per `FunctionCallRequest` id per session even if the enclosing
message is processed more than once; but the handler keeps no record of
handled ids, so a trace delivering the same `ToolCall` message (id `c1`)
twice invokes the adapter twice for that id. -/
theorem claim_C1_counterexample :
    (runSession [] dupTrace).submitted = [demoCall, demoCall] ∧
    demoCall.id = "c1" := ⟨rfl, rfl⟩

/-- Claim C1 (amended): there is no id-keyed idempotence guard; the
adapter is invoked exactly once per `submit_form` function-call
occurrence processed.  On any sequential schedule whose submissions have
all settled, the adapter invocation log equals, in order, the
concatenation of the `submit_form` calls of the frames received from
upstream — so re-delivering a message with an already-handled id invokes
the adapter again. -/
theorem claim_C1 (fields : List FormField) (t : List Ev)
    (hseq : seqOk fields initState t = true)
    (hset : (runSession fields t).pending = []) :
    (runSession fields t).submitted =
      ((runSession fields t).recvUpOpen.map submitsOf).flatten := by
  obtain ⟨-, -, h3⟩ := deliveryInv_run fields t initState hseq deliveryInv_initial
  have hset' : (runFrom fields initState t).pending = [] := hset
  rw [hset'] at h3
  simpa using h3

theorem claim_C1_witness :
    seqOk [] initState seqTrace = true ∧
    (runSession [] seqTrace).pending = [] ∧
    (runSession [] seqTrace).submitted =
      ((runSession [] seqTrace).recvUpOpen.map submitsOf).flatten :=
  ⟨rfl, rfl, claim_C1 [] seqTrace rfl rfl⟩

/-- Claim C3 counterexample: the claim states that the sequence delivered
to the peer equals the received sequence in order; but the upstream
message handler is `async` and forwards a `ToolCall` frame to the client
only after its submission settles, so a binary frame received after the
`ToolCall` frame overtakes it: received order is `[demoTool, demoBin]`,
delivered order is `[demoBin, demoTool]`. -/
theorem claim_C3_counterexample :
    (runSession [] overtakeTrace).recvUpOpen = [demoTool, demoBin] ∧
    (runSession [] overtakeTrace).sentClient = [demoBin, demoTool] ∧
    (runSession [] overtakeTrace).sentClient ≠ (runSession [] overtakeTrace).recvUpOpen :=
  ⟨rfl, rfl, by decide⟩

/-- Claim C3 (amended): per direction, the delivered sequence (excluding
mediator-injected messages) equals the received sequence — same length,
order, content and classification — with the upstream-to-client direction
guaranteed only on sequential schedules (no upstream frame arrives while
a submission is in flight, and all submissions have settled); a `ToolCall`
frame whose submission is in flight is forwarded only after settlement
and can be overtaken.  The client-to-upstream direction (frames received
while both connections are open) holds for every schedule. -/
theorem claim_C3 (fields : List FormField) (t : List Ev)
    (hseq : seqOk fields initState t = true)
    (hset : (runSession fields t).pending = []) :
    (runSession fields t).sentClient = (runSession fields t).recvUpOpen ∧
    (runSession fields t).sentUp.filterMap realtimeOf =
      (runSession fields t).recvClientActive := by
  constructor
  · obtain ⟨-, h2, -⟩ := deliveryInv_run fields t initState hseq deliveryInv_initial
    have hset' : (runFrom fields initState t).pending = [] := hset
    rw [hset'] at h2
    simpa using h2
  · exact relayInv_run fields t initState relayInv_initial

theorem claim_C3_witness :
    seqOk [] initState mixTrace = true ∧
    (runSession [] mixTrace).pending = [] ∧
    (runSession [] mixTrace).sentClient = (runSession [] mixTrace).recvUpOpen ∧
    (runSession [] mixTrace).sentUp.filterMap realtimeOf =
      (runSession [] mixTrace).recvClientActive := by
  have h := claim_C3 [] mixTrace rfl rfl
  exact ⟨rfl, rfl, h.1, h.2⟩

/-- Claim C6 counterexample: the claim states that when either connection
closes *or errors* the other connection is closed as an unconditional and
immediate consequence; but the upstream `error` handler only logs, so
after an upstream error event both connections are still open. -/
theorem claim_C6_counterexample :
    (runSession [] [Ev.upOpen, Ev.upErr]).client = ConnState.opened ∧
    (runSession [] [Ev.upOpen, Ev.upErr]).upstream = ConnState.opened :=
  ⟨rfl, rfl⟩

/-- Claim C6 (amended): close events propagate unconditionally and
immediately in both directions — an upstream close event closes the
client connection and a client close event closes the upstream connection
— and no further frames are processed on a closed connection (frame
events on a closed side leave the session state unchanged); an upstream
error event by itself, however, only logs and closes nothing. -/
theorem claim_C6 (fields : List FormField) (s : SessionState) (p q : Payload) :
    (s.upstream ≠ .closed →
      (stepEv fields s .upClose).client = .closed ∧
      (stepEv fields s .upClose).upstream = .closed) ∧
    (s.client = .opened →
      (stepEv fields s .clientClose).upstream = .closed ∧
      (stepEv fields s .clientClose).client = .closed) ∧
    (s.upstream = .closed → stepEv fields s (.upMsg p) = s) ∧
    (s.client = .closed → stepEv fields s (.clientMsg q) = s) ∧
    (stepEv fields s .upErr = s) := by
  refine ⟨?_, ?_, ?_, ?_, rfl⟩
  · intro h
    constructor <;> simp [stepEv, h]
  · intro h
    constructor <;> simp [stepEv, h]
  · intro h
    simp [stepEv, h]
  · intro h
    simp [stepEv, h]

theorem claim_C6_witness :
    demoOpen.upstream ≠ ConnState.closed ∧
    (stepEv [] demoOpen .upClose).client = ConnState.closed ∧
    (stepEv [] demoOpen .upClose).upstream = ConnState.closed ∧
    demoOpen.client = ConnState.opened ∧
    (stepEv [] demoOpen .clientClose).upstream = ConnState.closed ∧
    stepEv [] demoOpen .upErr = demoOpen := by
  have h := claim_C6 [] demoOpen demoBin demoBin
  exact ⟨by decide, (h.1 (by decide)).1, (h.1 (by decide)).2, rfl,
    (h.2.1 rfl).1, h.2.2.2.2⟩

/-- Claim C4 (confirmed): for a processed `submit_form` request (here the
only `submit_form` call of its message), a successful submission sends
exactly two messages upstream for it — first the `toolResponse` echoing
the id with `success:true`, then the `client_content` turn with
`turn_complete:true` — while a failed submission sends exactly one, the
`toolResponse` echoing the id with `success:false` and the failure
reason, and no client turn; the handler finishes with no suspended
run. -/
theorem claim_C4 (fields : List FormField) (s : SessionState) (m : ControlMsg)
    (pre post : List FunctionCall) (c : FunctionCall) (r : SubmitResult)
    (hm : m.toolCall = some { functionCalls := some (pre ++ c :: post) })
    (hc : c.name = "submit_form")
    (hpre : ∀ d ∈ pre, d.name ≠ "submit_form")
    (hpost : ∀ d ∈ post, d.name ≠ "submit_form")
    (hup : s.upstream = .opened) (hpend : s.pending = []) :
    (runFrom fields s [Ev.upMsg (.text m), Ev.submitDone 0 r]).sentUp =
      s.sentUp ++ injectForId c.id r ∧
    injectForId c.id SubmitResult.ok =
      [ .toolResponse c.id true submitSuccessMessage,
        .clientTurn submitFollowUpText true ] ∧
    (∀ e, injectForId c.id (.err e) = [.toolResponse c.id false e]) ∧
    (runFrom fields s [Ev.upMsg (.text m), Ev.submitDone 0 r]).pending = [] := by
  have hfil := filter_submit_single hc hpre hpost
  have hpm := process_message_run fields s m (pre ++ c :: post) [r] hm hup hpend
    (by simp [hfil])
  rw [show [Ev.upMsg (Payload.text m), Ev.submitDone 0 r] =
    Ev.upMsg (Payload.text m) :: List.map (Ev.submitDone 0) [r] from rfl]
  rw [hpm]
  refine ⟨?_, rfl, fun e => rfl, rfl⟩
  simp [hfil]

theorem claim_C4_witness :
    demoMsg.toolCall = some { functionCalls := some ([] ++ demoCall :: []) } ∧
    demoCall.name = "submit_form" ∧
    demoOpen.upstream = ConnState.opened ∧
    demoOpen.pending = [] ∧
    (runFrom [] demoOpen [Ev.upMsg (.text demoMsg), Ev.submitDone 0 .ok]).sentUp =
      demoOpen.sentUp ++ injectForId demoCall.id .ok := by
  have h := claim_C4 [] demoOpen demoMsg [] [] demoCall .ok rfl rfl
    (by simp) (by simp) rfl rfl
  exact ⟨rfl, rfl, rfl, rfl, h.1⟩

/-- Claim C7 (confirmed): within one `ToolCall` message the adapter is
invoked exactly for the calls whose name is the exact case-sensitive
string `submit_form` (in order, with no early exit, so several such calls
are each processed fully), requests with any other name trigger no
adapter invocation and no response message (the synthesized upstream
messages are indexed only by the `submit_form` calls' ids), the original
message is still forwarded, and the name test is literal string
equality. -/
theorem claim_C7 (fields : List FormField) (s : SessionState) (m : ControlMsg)
    (calls : List FunctionCall) (rs : List SubmitResult)
    (hm : m.toolCall = some { functionCalls := some calls })
    (hup : s.upstream = .opened) (hpend : s.pending = [])
    (hlen : rs.length = (calls.filter isSubmitCall).length) :
    (runFrom fields s (Ev.upMsg (.text m) :: rs.map (Ev.submitDone 0))).submitted =
      s.submitted ++ calls.filter isSubmitCall ∧
    (runFrom fields s (Ev.upMsg (.text m) :: rs.map (Ev.submitDone 0))).sentUp =
      s.sentUp ++ (List.zipWith injectForId
        ((calls.filter isSubmitCall).map (fun c => c.id)) rs).flatten ∧
    (runFrom fields s (Ev.upMsg (.text m) :: rs.map (Ev.submitDone 0))).sentClient =
      s.sentClient ++ [.text m] ∧
    (∀ c, isSubmitCall c = true ↔ c.name = "submit_form") := by
  rw [process_message_run fields s m calls rs hm hup hpend hlen]
  refine ⟨rfl, rfl, rfl, ?_⟩
  intro c
  simp [isSubmitCall]

theorem claim_C7_witness :
    demoMsg2.toolCall = some { functionCalls := some [demoOther, demoCall] } ∧
    demoOpen.upstream = ConnState.opened ∧
    demoOpen.pending = [] ∧
    [SubmitResult.err "boom"].length =
      ([demoOther, demoCall].filter isSubmitCall).length ∧
    (runFrom [] demoOpen
        (Ev.upMsg (.text demoMsg2) ::
          [SubmitResult.err "boom"].map (Ev.submitDone 0))).submitted =
      demoOpen.submitted ++ [demoOther, demoCall].filter isSubmitCall := by
  have h := claim_C7 [] demoOpen demoMsg2 [demoOther, demoCall]
    [SubmitResult.err "boom"] rfl rfl rfl (by decide)
  exact ⟨rfl, rfl, rfl, by decide, h.1⟩

/-- Claim C9 (confirmed): a `ToolCall` message flowing upstream-to-client
is forwarded to the client unchanged (the very frame received) regardless
of the submission's outcome, and the upstream injection happens as well:
for either result the forwarded original lands in the client send log and
the nonempty synthesized message list lands in the upstream send log —
forwarding and injection both occur. -/
theorem claim_C9 (fields : List FormField) (s : SessionState) (m : ControlMsg)
    (pre post : List FunctionCall) (c : FunctionCall) (r : SubmitResult)
    (hm : m.toolCall = some { functionCalls := some (pre ++ c :: post) })
    (hc : c.name = "submit_form")
    (hpre : ∀ d ∈ pre, d.name ≠ "submit_form")
    (hpost : ∀ d ∈ post, d.name ≠ "submit_form")
    (hup : s.upstream = .opened) (hpend : s.pending = []) :
    (runFrom fields s [Ev.upMsg (.text m), Ev.submitDone 0 r]).sentClient =
      s.sentClient ++ [.text m] ∧
    (runFrom fields s [Ev.upMsg (.text m), Ev.submitDone 0 r]).sentUp =
      s.sentUp ++ injectForId c.id r ∧
    injectForId c.id r ≠ [] := by
  have hfil := filter_submit_single hc hpre hpost
  have hpm := process_message_run fields s m (pre ++ c :: post) [r] hm hup hpend
    (by simp [hfil])
  rw [show [Ev.upMsg (Payload.text m), Ev.submitDone 0 r] =
    Ev.upMsg (Payload.text m) :: List.map (Ev.submitDone 0) [r] from rfl]
  rw [hpm]
  refine ⟨rfl, by simp [hfil], ?_⟩
  cases r <;> simp [injectForId]

theorem claim_C9_witness :
    demoMsg.toolCall = some { functionCalls := some ([] ++ demoCall :: []) } ∧
    demoCall.name = "submit_form" ∧
    demoOpen.upstream = ConnState.opened ∧
    demoOpen.pending = [] ∧
    (runFrom [] demoOpen
        [Ev.upMsg (.text demoMsg), Ev.submitDone 0 (.err "network error")]).sentClient =
      demoOpen.sentClient ++ [.text demoMsg] ∧
    injectForId demoCall.id (.err "network error") ≠ [] := by
  have h := claim_C9 [] demoOpen demoMsg [] [] demoCall (.err "network error")
    rfl rfl (by simp) (by simp) rfl rfl
  exact ⟨rfl, rfl, rfl, rfl, h.1, h.2.2⟩

/-- Claim C5 (confirmed): on every trace at most one setup message is
ever sent upstream and only as the very first upstream message; whenever
the upstream connection is open, the first upstream message is exactly
the setup message built from the configured field list; that setup's
system-instruction string contains every field's label and every field's
id as substrings, and it carries exactly one tool declaration, named
`submit_form`. -/
theorem claim_C5 (fields : List FormField) (t : List Ev) (f : FormField)
    (hf : f ∈ fields) :
    (runSession fields t).sentUp.countP (fun m => isSetupMsg m) ≤ 1 ∧
    (∀ m ∈ (runSession fields t).sentUp.drop 1, isSetupMsg m = false) ∧
    ((runSession fields t).upstream = .opened →
      ∃ rest, (runSession fields t).sentUp =
        UpMsg.setup (mkSetup (systemInstructionFor fields)) :: rest) ∧
    ContainsSub f.label (systemInstructionFor fields) ∧
    ContainsSub f.id (systemInstructionFor fields) ∧
    (mkSetup (systemInstructionFor fields)).functionDeclarations.map
      (fun d => d.name) = ["submit_form"] := by
  obtain ⟨-, hdrop, hopen⟩ := setupInv_run fields t initState (setupInv_initial fields)
  exact ⟨countP_le_one_of_tail hdrop, hdrop, hopen,
    containsSub_systemInstruction hf (containsSub_label_fieldDesc f),
    containsSub_systemInstruction hf (containsSub_id_fieldDesc f), rfl⟩

theorem claim_C5_witness :
    ({ id := "entry.2005620554", label := "Name", required := true,
       type := "text" } : FormField) ∈ FORM_FIELDS ∧
    (runSession FORM_FIELDS [Ev.upOpen]).sentUp.countP (fun m => isSetupMsg m) ≤ 1 ∧
    ContainsSub "Name" (systemInstructionFor FORM_FIELDS) ∧
    ContainsSub "entry.2005620554" (systemInstructionFor FORM_FIELDS) := by
  have h := claim_C5 FORM_FIELDS [Ev.upOpen]
    { id := "entry.2005620554", label := "Name", required := true, type := "text" }
    (by decide)
  exact ⟨by decide, h.1, h.2.2.2.1, h.2.2.2.2.1⟩
